import Mathlib

/-!
Verification development for the relation-extraction training pipeline
(`src/tcre/exec/v1/cli.py` and `src/tcre/modeling/training.py`).

The Python source is shallowly embedded: pure functions become Lean
functions, the stateful training loop becomes explicit state passing,
Python floats are modelled as rationals (`ℚ`), fallible code returns
`Except`.  External collaborators (the labeling database, torch tensor
math, file I/O, the ignite engine plumbing) are abstracted as oracle
inputs, exactly as the specification's scope section delimits them.
-/

deriving instance DecidableEq for Except

namespace Tcre

/-! ### Python / pandas primitives -/

/-- Accumulator pass of `firstDedup`: keep each element not seen yet. -/
def firstDedupAux {α : Type} [DecidableEq α] (seen : List α) : List α → List α
  | [] => []
  | x :: xs =>
    if x ∈ seen then firstDedupAux seen xs
    else x :: firstDedupAux (x :: seen) xs

/-- First-occurrence deduplication, the order `pandas.Series.unique` and
`dict` key insertion use. -/
def firstDedup {α : Type} [DecidableEq α] (l : List α) : List α :=
  firstDedupAux [] l

/-- Split a character list at every occurrence of `sep`, Python
`str.split(sep)` semantics for a one-character separator. -/
def splitChars (sep : Char) : List Char → List (List Char)
  | [] => [[]]
  | c :: cs =>
    match splitChars sep cs with
    | [] => [[]]
    | g :: gs => if c = sep then [] :: g :: gs else (c :: g) :: gs

/-- Python `s.split(sep)` for a one-character separator. -/
def pySplit (sep : Char) (s : String) : List String :=
  (splitChars sep s.data).map String.mk

/-- Python `s.startswith(p)`. -/
def pyStartsWith (s p : String) : Bool :=
  p.data.isPrefixOf s.data

/-- Python `dict` insertion: overwrite the value of an existing key in
place, otherwise append the new binding. -/
def dictInsert {α β : Type} [DecidableEq α] (d : List (α × β)) (k : α) (v : β) :
    List (α × β) :=
  if d.any fun p => decide (p.1 = k) then
    d.map fun p => if p.1 = k then (k, v) else p
  else
    d ++ [(k, v)]

/-! ### Marker/Swap Config Builder (`cli.get_modeling_config`)

`MARKER_LISTS` is a module-level registry mapping a marker-list name to a
list of four open/close marker pairs.  In Python each pair is a tuple and
`get_modeling_config` overwrites positions 2 and 3 of the (aliased!)
registry value with `None` when secondary markers are disabled, so an
entry is modelled as `Option (String × String)` and the builder threads
the registry state explicitly. -/

/-- An entry of a marker list: an open/close pair, or `None` once
`get_modeling_config` has cleared it. -/
abbrev MarkerEntry := Option (String × String)

/-- The registry type: marker-list name to four marker entries. -/
abbrev MarkerRegistry := List (String × List MarkerEntry)

/-- Initial value of the module-level `MARKER_LISTS` registry. -/
def MARKER_LISTS : MarkerRegistry :=
  [("doub_01", [some ("<<", ">>"), some ("[[", "]]"),
                some ("##", "##"), some ("@@", "@@")]),
   ("sngl_01", [some ("<", ">"), some ("[", "]"),
                some ("#", "#"), some ("@", "@")]),
   ("mult_01", [some ("< #", "# >"), some ("< @", "@ >"),
                some ("| #", "# |"), some ("| @", "@")])]

/-- Entity-type label for cell types, imported by the source from
`tcre.supervision` (external module; the literal value is opaque here). -/
def ENT_TYP_CT_L : String := "immune_cell_type"

/-- Entity-type label for cytokines (external constant, as above). -/
def ENT_TYP_CK_L : String := "cytokine"

/-- Entity-type label for transcription factors (external constant). -/
def ENT_TYP_TF_L : String := "transcription_factor"

/-- The module-level `DEFAULT_SWAPS` mapping from entity type to its
canonical replacement token. -/
def DEFAULT_SWAPS : List (String × String) :=
  [(ENT_TYP_CT_L, "CELL"), (ENT_TYP_CK_L, "CYTOKINE"), (ENT_TYP_TF_L, "TF")]

/-- The `markers` structure `get_modeling_config` returns: `primary` and
`secondary` dictionaries from entity type to a `[open, close]` list. -/
structure Markers where
  primary : List (String × List String)
  secondary : List (String × List String)
deriving DecidableEq

/-- The slice of the resolved modeling configuration that
`get_modeling_config` computes itself; the remaining keys are copied
verbatim from the keyword arguments and are carried by the callers. -/
structure ModelingConfig where
  markers : Markers
  swaps : Option (List (String × String))
deriving DecidableEq

/-- Python `list(x or [])` applied to a marker entry. -/
def pyOrEmptyList (e : MarkerEntry) : List String :=
  match e with
  | some (a, b) => [a, b]
  | none => []

/-- Replace the value stored under `k` in the registry (the effect of
mutating the aliased list in Python). -/
def registryUpdate (reg : MarkerRegistry) (k : String) (v : List MarkerEntry) :
    MarkerRegistry :=
  reg.map fun p => if p.1 = k then (k, v) else p

/-- Embedding of `cli.get_modeling_config`.  `markers = MARKER_LISTS[name]`
aliases the registry value, so the `markers[2] = None; markers[3] = None`
statements executed when `use_secondary` is false also update the
registry; the returned registry reflects that.  Failure cases: unknown
marker-list name (Python `KeyError`, the spec's `ConfigError`), and the
`list(markers[i])` calls on a missing or `None` entry (Python
`IndexError`/`TypeError`). -/
def get_modeling_config (reg : MarkerRegistry) (markerList : String)
    (useSecondary : Bool) (entityTypes : String × String) (useSwaps : Bool) :
    Except String (ModelingConfig × MarkerRegistry) :=
  match List.lookup markerList reg with
  | none => .error ("KeyError: " ++ markerList)
  | some markers0 =>
    let markers := if useSecondary then markers0
                   else (markers0.set 2 none).set 3 none
    let reg' := if useSecondary then reg else registryUpdate reg markerList markers
    match markers[0]?, markers[1]? with
    | some (some m0), some (some m1) =>
      let typ0 := entityTypes.1
      let typ1 := entityTypes.2
      .ok ({ markers :=
               { primary := dictInsert (dictInsert [] typ0 [m0.1, m0.2]) typ1 [m1.1, m1.2],
                 secondary := dictInsert (dictInsert [] typ0 (pyOrEmptyList (markers.getD 2 none)))
                                typ1 (pyOrEmptyList (markers.getD 3 none)) },
             swaps := if useSwaps then some DEFAULT_SWAPS else none },
           reg')
    | _, _ => .error "TypeError: marker entry is not a pair"

/-! ### Feature rows and the Dataset Assembler (`cli._datasets`)

`features.candidates_to_records` / `features.get_record_features` are
external collaborators (excluded by the spec's scope); their output — the
feature-row table `df`, one row per candidate with `id`, `text`, `label`
and the two distance columns — is the input of the embedded pipeline.
Labels are Python floats, modelled as rationals. -/

/-- One row of the feature table produced by the (external) feature
builder, after the `tokens → text` rename. -/
structure FeatureRow where
  id : Int
  text : List String
  label : ℚ
  e0_dist : List Int
  e1_dist : List Int
deriving DecidableEq

/-- Errors raised inside `_datasets`. -/
inductive DataError where
  /-- The `AssertionError` raised when some `label` is outside `[0, 1]`;
  carries the reported example values. -/
  | labelAssertion (examples : List ℚ)
  /-- Pandas `KeyError`: a split references a candidate id absent from the
  feature table. -/
  | keyError (cid : Int)
  /-- A candidate id matches more than one feature row, so `dfi.loc[cid]`
  is a sub-table rather than a row; the source never constructs a dataset
  from this shape and the embedding stops here. -/
  | nonUniqueIndex (cid : Int)
  /-- Python `KeyError` on `datasets[name]` for a missing split name. -/
  | missingSplit (name : String)
deriving DecidableEq

/-- Embedding of the label-range assertion in `_datasets`:
`df['label'].between(0, 1)` is inclusive on both ends, and the error
message carries `df['label'][~between].unique()[:10]`. -/
def checkLabels (df : List FeatureRow) : Except DataError (List FeatureRow) :=
  if df.all fun r => decide (0 ≤ r.label ∧ r.label ≤ 1) then
    .ok df
  else
    .error (.labelAssertion
      ((firstDedup ((df.filter fun r => !decide (0 ≤ r.label ∧ r.label ≤ 1)).map
          fun r => r.label)).take 10))

/-- Pandas `dfi.loc[cid]` on the id-indexed feature table: the rows whose
`id` equals `cid`. -/
def dfiLoc (df : List FeatureRow) (cid : Int) : List FeatureRow :=
  df.filter fun r => decide (r.id = cid)

/-- One element of the `_datasets` list comprehension:
`dfi.loc[cid].append(pd.Series({'split': s}))` — the unique feature row
for `cid` tagged with the split name. -/
def assembleRow (df : List FeatureRow) (s : String) (cid : Int) :
    Except DataError (FeatureRow × String) :=
  match dfiLoc df cid with
  | [r] => .ok (r, s)
  | [] => .error (.keyError cid)
  | _ => .error (.nonUniqueIndex cid)

/-- The rows contributed by one split: one tagged row per candidate id,
in id-list order. -/
def assembleSplit (df : List FeatureRow) (s : String) :
    List Int → Except DataError (List (FeatureRow × String))
  | [] => .ok []
  | cid :: cids =>
    match assembleRow df s cid with
    | .error e => .error e
    | .ok r =>
      match assembleSplit df s cids with
      | .error e => .error e
      | .ok rs => .ok (r :: rs)

/-- The full `_datasets` comprehension
`[dfi.loc[cid].append(...) for s, cids in splits.items() for cid in cids]`:
split-major order, one row per (split, candidate-id) occurrence. -/
def assembleRows (df : List FeatureRow) :
    List (String × List Int) → Except DataError (List (FeatureRow × String))
  | [] => .ok []
  | p :: ps =>
    match assembleSplit df p.1 p.2 with
    | .error e => .error e
    | .ok rs =>
      match assembleRows df ps with
      | .error e => .error e
      | .ok rest => .ok (rs ++ rest)

/-- The `datasets.groupby('split')` step followed by `g.drop('split',
axis=1)`: group the tagged rows by split name and strip the tag.  Group
key order is immaterial to every property proved here (pandas sorts the
keys; the embedding keeps first-occurrence order). -/
def groupRows (rows : List (FeatureRow × String)) :
    List (String × List FeatureRow) :=
  (firstDedup (rows.map fun r => r.2)).map fun k =>
    (k, (rows.filter fun r => decide (r.2 = k)).map fun r => r.1)

/-- Embedding of `cli._datasets` from the feature table on: the label
assertion, then the per-split row assembly, then the groupby.  The
`DataFrameDataset`/`Field` wrapping is torchtext glue carrying the same
rows. -/
def datasetsPipeline (df : List FeatureRow) (splits : List (String × List Int)) :
    Except DataError (List (String × List FeatureRow)) :=
  match checkLabels df with
  | .error e => .error e
  | .ok df' =>
    match assembleRows df' splits with
    | .error e => .error e
    | .ok rows => .ok (groupRows rows)

/-! ### Vocabulary Provider (`cli._train`, embedding-type dispatch)

`fields['text'].build_vocab(datasets['train'])` counts every token of the
training dataset's `text` column and lays the vocabulary out as the two
specials followed by the observed tokens ordered by descending frequency,
ties alphabetically (torchtext `Vocab` construction, an external
collaborator modelled to its documented order). -/

/-- All tokens of a dataset's `text` field, in row-major order. -/
def datasetTokens (rows : List FeatureRow) : List String :=
  rows.flatMap fun r => r.text

/-- Ordering used for vocabulary layout: descending count, ties by token
string ascending. -/
def vocabLe (a b : String × Nat) : Bool :=
  decide (b.2 < a.2) || (decide (a.2 = b.2) && !decide (b.1 < a.1))

/-- Insertion into a list sorted by `le`. -/
def insertLe {α : Type} (le : α → α → Bool) (a : α) : List α → List α
  | [] => [a]
  | b :: bs => if le a b then a :: b :: bs else b :: insertLe le a bs

/-- Insertion sort by `le`. -/
def sortLe {α : Type} (le : α → α → Bool) (l : List α) : List α :=
  l.foldr (insertLe le) []

/-- The token-to-index vocabulary as its index-to-token list:
`['<unk>', '<pad>']` then the distinct observed tokens by frequency. -/
def vocabItos (tokens : List String) : List String :=
  ["<unk>", "<pad>"] ++
    (sortLe vocabLe ((firstDedup tokens).map fun t => (t, tokens.count t))).map
      fun p => p.1

/-- The `denovo` branch of `_train`: run `_datasets`, then build the
vocabulary from the `train` dataset only (`datasets['train']` raises
`KeyError` when absent). -/
def denovoVocab (df : List FeatureRow) (splits : List (String × List Int)) :
    Except DataError (List String) :=
  match datasetsPipeline df splits with
  | .error e => .error e
  | .ok ds =>
    match List.lookup "train" ds with
    | none => .error (.missingSplit "train")
    | some g => .ok (vocabItos (datasetTokens g))

/-- Result of the word-embedding-type dispatch in `_train`. -/
inductive VocabAction where
  /-- Load the pretrained word2vec table, bounded to `vocabLimit` vectors
  (`KeyedVectors.load_word2vec_format(..., limit=vocab_limit)`). -/
  | loadW2V (vocabLimit : Nat)
  /-- Build the vocabulary from the training dataset only. -/
  | buildDenovoFromTrain
deriving DecidableEq

/-- Embedding of the `wrd_embedding_type` dispatch in `_train`: the first
branch tests `config['wrd_embedding_type'].startswith('w2v')`, the second
equality with `'denovo'`, anything else raises `ValueError`. -/
def wordEmbeddingDispatch (embeddingType : String) (vocabLimit : Nat) :
    Except String VocabAction :=
  if pyStartsWith embeddingType "w2v" then
    .ok (.loadW2V vocabLimit)
  else if embeddingType = "denovo" then
    .ok .buildDenovoFromTrain
  else
    .error ("Word embedding type " ++ embeddingType ++ " not valid")

/-! ### Output-directory clear guard (`cli.train`) -/

/-- The `pathlib` parts of a resolved absolute path: the root `"/"`
followed by each non-empty segment (`Path('/tmp/a').parts ==
('/', 'tmp', 'a')`).  Resolution itself is filesystem glue; the guard
receives the already-resolved path. -/
def pathParts (resolved : String) : List String :=
  "/" :: ((pySplit '/' resolved).filter fun seg => !decide (seg = ""))

/-- Embedding of the destructive-clear guard in `cli.train`: refuse
(`AssertionError`) when the resolved path has at most two parts, else
proceed to `shutil.rmtree`. -/
def clearOutputDirGuard (resolved : String) : Except String Unit :=
  if (pathParts resolved).length ≤ 2 then
    .error ("Path " ++ resolved ++ " is too close to root dir to delete")
  else
    .ok ()

/-! ### Training Orchestrator (`training.supervise`)

The orchestration is embedded as an explicit epoch loop.  Tensor math is
external: the per-epoch evaluation metrics are oracle inputs
(`trainF1`, `valF1 : ℕ → ℚ` give the F1 the train/validation evaluator
computes after each epoch), and the aggregated test predictions are the
oracle input `testPreds`.  The control state — the `ReduceLROnPlateau`
scheduler (constructed in the source with `mode='min'`, `factor=0.25`,
`threshold=0.01` relative, `patience=lr_patience`, default cooldown 0 and
`min_lr` 0), ignite's `EarlyStopping`, the history list, and the single
`COMPLETED`-event test evaluation — is modelled faithfully. -/

/-- State of `torch.optim.lr_scheduler.ReduceLROnPlateau` (one parameter
group): `best` (`None` is the initial infinity of `mode='min'`), the
bad-epoch counter, and the optimizer's learning rate it mutates. -/
structure PlateauState where
  best : Option ℚ
  numBadEpochs : Nat
  lr : ℚ
deriving DecidableEq

/-- `ReduceLROnPlateau.is_better` for `mode='min'`,
`threshold_mode='rel'`, `threshold=0.01`: `current < best * (1 - 0.01)`;
everything beats the initial infinity. -/
def plateauIsBetter (current : ℚ) (best : Option ℚ) : Bool :=
  match best with
  | none => true
  | some b => decide (current < b * (1 - 1/100))

/-- `ReduceLROnPlateau._reduce_lr` with `factor=0.25`, `min_lr=0`,
`eps=1e-8`: the new rate is applied only when the decrease exceeds
`eps`. -/
def plateauReduceLr (lr : ℚ) : ℚ :=
  let newLr := max (lr * (1/4)) 0
  if 1/100000000 < lr - newLr then newLr else lr

/-- One `scheduler.step(metric)` call. -/
def plateauStep (patience : Nat) (st : PlateauState) (current : ℚ) :
    PlateauState :=
  if plateauIsBetter current st.best then
    { st with best := some current, numBadEpochs := 0 }
  else if patience < st.numBadEpochs + 1 then
    { best := st.best, numBadEpochs := 0, lr := plateauReduceLr st.lr }
  else
    { st with numBadEpochs := st.numBadEpochs + 1 }

/-- State of ignite's `EarlyStopping` handler. -/
structure EsState where
  bestScore : Option ℚ
  counter : Nat
deriving DecidableEq

/-- One firing of `EarlyStopping` on the validation score; the returned
flag is `trainer.terminate()` being called (`counter >= patience`).
Improvement must be strict to reset the counter. -/
def esStep (patience : Nat) (st : EsState) (score : ℚ) : EsState × Bool :=
  match st.bestScore with
  | none => ({ bestScore := some score, counter := st.counter }, false)
  | some b =>
    if score ≤ b then
      ({ bestScore := some b, counter := st.counter + 1 },
       patience ≤ st.counter + 1)
    else
      ({ bestScore := some score, counter := 0 }, false)

/-- One record of the in-memory history list (`type`, `epoch`, the F1 of
the evaluation, and the current learning rate; the remaining metrics are
computed by the same external evaluator and add nothing to the control
flow). -/
structure HistRecord where
  dtype : String
  epoch : Nat
  f1 : ℚ
  lr : ℚ
deriving DecidableEq

/-- Aggregated test predictions: `(id, y_true, y_pred)` triples collected
by the `PredictionAggregator` metric (an oracle input). -/
abbrev PredSet := List (Int × ℚ × ℚ)

/-- Control state of the supervise loop. -/
structure LoopState where
  lastEpoch : Nat
  es : EsState
  sched : PlateauState
  history : List HistRecord
  terminated : Bool
deriving DecidableEq

/-- The `EPOCH_COMPLETED` work of epoch `e` (`log_training_results`): a
training-set evaluation is logged, then the validation evaluation runs —
firing `EarlyStopping` on its F1 — and is logged, then
`scheduler.step(metric)` observes the same validation F1. -/
def epochBody (trainF1 valF1 : Nat → ℚ) (esPatience lrPatience : Nat)
    (e : Nat) (st : LoopState) : LoopState :=
  let lr := st.sched.lr
  let f1 := valF1 e
  let esr := esStep esPatience st.es f1
  { lastEpoch := e,
    es := esr.1,
    sched := plateauStep lrPatience st.sched f1,
    history := st.history ++ [⟨"Training", e, trainF1 e, lr⟩,
                              ⟨"Validation", e, f1, lr⟩],
    terminated := esr.2 }

/-- The trainer's epoch loop: run epochs `e, e+1, …` until the epoch
budget is exhausted or `EarlyStopping` has terminated the trainer. -/
def runEpochs (trainF1 valF1 : Nat → ℚ) (esPatience lrPatience : Nat) :
    Nat → Nat → LoopState → LoopState
  | 0, _, st => st
  | fuel + 1, e, st =>
    let st' := epochBody trainF1 valF1 esPatience lrPatience e st
    if st'.terminated then st'
    else runEpochs trainF1 valF1 esPatience lrPatience fuel (e + 1) st'

/-- `trainer.run(train_iter, max_epochs=max_epochs)` up to the
`COMPLETED` event: epochs start at 1 with fresh scheduler and
early-stopping state and the optimizer at learning rate `lr`. -/
def superviseLoop (trainF1 valF1 : Nat → ℚ) (esPatience lrPatience : Nat)
    (maxEpochs : Nat) (lr : ℚ) : LoopState :=
  runEpochs trainF1 valF1 esPatience lrPatience maxEpochs 1
    ⟨0, ⟨none, 0⟩, ⟨none, 0, lr⟩, [], false⟩

/-- The `COMPLETED` handler `log_test_results`, fired exactly once when
the trainer finishes: one forward-only evaluation over the test set is
logged and its aggregated predictions are appended to the (empty)
`test_predictions` list. -/
def superviseComplete (testF1 : Nat → ℚ) (testPreds : PredSet)
    (st : LoopState) : LoopState × List PredSet :=
  ({ st with history := st.history ++
       [⟨"Test", st.lastEpoch, testF1 st.lastEpoch, st.sched.lr⟩] },
   [testPreds])

/-- The tail of `supervise`:
`assert len(test_predictions) == 1; return history, test_predictions[0]`. -/
def superviseFinalize (history : List HistRecord) (tps : List PredSet) :
    Except String (List HistRecord × PredSet) :=
  match tps with
  | [p] => .ok (history, p)
  | _ => .error ("Found " ++ toString tps.length ++
      " test prediction sets, expecting 1")

/-- Embedding of `training.supervise` (defaults: `max_epochs=250`,
`es_patience=25`, `lr_patience=25`): run the epoch loop, fire the single
completion-time test evaluation, and return the history together with the
unique test prediction set. -/
def supervise (trainF1 valF1 testF1 : Nat → ℚ) (testPreds : PredSet)
    (lr : ℚ) (maxEpochs esPatience lrPatience : Nat) :
    Except String (List HistRecord × PredSet) :=
  let st := superviseLoop trainF1 valF1 esPatience lrPatience maxEpochs lr
  let c := superviseComplete testF1 testPreds st
  superviseFinalize c.1.history c.2

/-! ### Checkpoint loading (`training.load_checkpoint`)

`glob` and `torch.load` are file I/O; the embedding receives the list of
`*.pth` paths and stands each loaded component state in for its path.
The component name is `f.split('_')[1]`. -/

/-- The component name parsed from a checkpoint file path:
`f.split('_')[1]`, `none` when the path has no underscore (Python
`IndexError`). -/
def componentOf (f : String) : Option String :=
  (pySplit '_' f)[1]?

/-- Prepend file `f` to the group of component `c`, creating the group
when absent (the `defaultdict(list)` accumulation; group order is
immaterial to every property proved here and per-group file order is
preserved, since `buildComps` prepends earlier files). -/
def addToComp (c : String) (f : String) :
    List (String × List String) → List (String × List String)
  | [] => [(c, [f])]
  | g :: gs => if g.1 = c then (g.1, f :: g.2) :: gs else g :: addToComp c f gs

/-- The `comps` accumulation loop of `load_checkpoint`: group the files
by parsed component name, failing on the first unparsable path. -/
def buildComps : List String → Except String (List (String × List String))
  | [] => .ok []
  | f :: fs =>
    match componentOf f with
    | none => .error "IndexError: list index out of range"
    | some c =>
      match buildComps fs with
      | .error e => .error e
      | .ok gs => .ok (addToComp c f gs)

/-- Embedding of `training.load_checkpoint`: after grouping, any
component with more than one file is a fatal `ValueError`; otherwise each
component maps to its single loaded state (`{k: v[0] ...}`). -/
def load_checkpoint (files : List String) :
    Except String (List (String × String)) :=
  match buildComps files with
  | .error e => .error e
  | .ok comps =>
    if comps.any fun g => decide (1 < g.2.length) then
      .error "Found multiple checkpoint files for the same component"
    else
      .ok (comps.map fun g => (g.1, g.2.headD ""))

/-! ### Helper lemmas -/

theorem mem_firstDedupAux {α : Type} [DecidableEq α] (a : α) :
    ∀ (l seen : List α), a ∈ firstDedupAux seen l ↔ (a ∈ l ∧ a ∉ seen) := by
  intro l
  induction l with
  | nil => intro seen; simp [firstDedupAux]
  | cons x xs ih =>
    intro seen
    simp only [firstDedupAux]
    by_cases hx : x ∈ seen
    · rw [if_pos hx, ih]
      constructor
      · rintro ⟨h1, h2⟩
        exact ⟨List.mem_cons.mpr (Or.inr h1), h2⟩
      · rintro ⟨h1, h2⟩
        rcases List.mem_cons.mp h1 with he | he
        · exact absurd (he ▸ hx) h2
        · exact ⟨he, h2⟩
    · rw [if_neg hx]
      constructor
      · intro h
        rcases List.mem_cons.mp h with he | hmem
        · exact ⟨List.mem_cons.mpr (Or.inl he), he ▸ hx⟩
        · have := (ih (x :: seen)).mp hmem
          exact ⟨List.mem_cons.mpr (Or.inr this.1),
            fun hs => this.2 (List.mem_cons.mpr (Or.inr hs))⟩
      · rintro ⟨h1, h2⟩
        by_cases hax : a = x
        · exact List.mem_cons.mpr (Or.inl hax)
        · rcases List.mem_cons.mp h1 with he | hmem
          · exact absurd he hax
          · refine List.mem_cons.mpr (Or.inr ((ih (x :: seen)).mpr ⟨hmem, ?_⟩))
            intro hs
            rcases List.mem_cons.mp hs with h' | h'
            · exact hax h'
            · exact h2 h'

theorem mem_firstDedup {α : Type} [DecidableEq α] {a : α} {l : List α} :
    a ∈ firstDedup l ↔ a ∈ l := by
  unfold firstDedup
  rw [mem_firstDedupAux]
  simp

theorem nodup_firstDedupAux {α : Type} [DecidableEq α] :
    ∀ (l seen : List α), (firstDedupAux seen l).Nodup := by
  intro l
  induction l with
  | nil => intro seen; simp [firstDedupAux]
  | cons x xs ih =>
    intro seen
    simp only [firstDedupAux]
    by_cases hx : x ∈ seen
    · rw [if_pos hx]
      exact ih seen
    · rw [if_neg hx]
      refine List.nodup_cons.mpr ⟨?_, ih (x :: seen)⟩
      intro hmem
      exact ((mem_firstDedupAux x xs (x :: seen)).mp hmem).2
        (List.mem_cons.mpr (Or.inl rfl))

theorem nodup_firstDedup {α : Type} [DecidableEq α] (l : List α) :
    (firstDedup l).Nodup :=
  nodup_firstDedupAux l []

theorem length_filter_add_not {α : Type} (p : α → Bool) (l : List α) :
    (l.filter p).length + (l.filter fun a => !(p a)).length = l.length := by
  induction l with
  | nil => rfl
  | cons a l ih =>
    by_cases h : p a = true
    · rw [List.filter_cons_of_pos h, List.filter_cons_of_neg (by simp [h])]
      simp only [List.length_cons]
      omega
    · have hf : p a = false := by
        cases hpa : p a
        · rfl
        · exact absurd hpa h
      rw [List.filter_cons_of_neg h, List.filter_cons_of_pos (by simp [hf])]
      simp only [List.length_cons]
      omega

theorem lookup_map_graph {β : Type} (f : String → β) :
    ∀ (keys : List String) (k : String), k ∈ keys →
      List.lookup k (keys.map fun x => (x, f x)) = some (f k) := by
  intro keys
  induction keys with
  | nil => intro k h; simp at h
  | cons k0 ks ih =>
    intro k h
    by_cases hk : k = k0
    · subst hk; simp [List.lookup]
    · have : k ∈ ks := by
        rcases List.mem_cons.mp h with h' | h'
        · exact absurd h' hk
        · exact h'
      simpa [List.lookup, beq_eq_false_iff_ne.mpr hk] using ih k this

theorem lookup_map_graph_inv {β : Type} (f : String → β) :
    ∀ (keys : List String) (k : String) (g : β),
      List.lookup k (keys.map fun x => (x, f x)) = some g → g = f k := by
  intro keys
  induction keys with
  | nil => intro k g h; simp [List.lookup] at h
  | cons k0 ks ih =>
    intro k g h
    by_cases hk : k = k0
    · subst hk
      simp [List.lookup] at h
      exact h.symm
    · rw [List.map_cons, List.lookup, beq_eq_false_iff_ne.mpr hk] at h
      exact ih k g h

theorem lookup_map_replace {α β : Type} [DecidableEq α]
    (k : α) (v : β) (k' : α) (h : k' ≠ k) :
    ∀ (d : List (α × β)),
      List.lookup k' (d.map fun p => if p.1 = k then (k, v) else p) =
        List.lookup k' d := by
  intro d
  induction d with
  | nil => rfl
  | cons p d ih =>
    by_cases hp : p.1 = k
    · rw [List.map_cons, if_pos hp, List.lookup, List.lookup,
        beq_eq_false_iff_ne.mpr h, beq_eq_false_iff_ne.mpr (hp ▸ h)]
      exact ih
    · rw [List.map_cons, if_neg hp, List.lookup, List.lookup]
      by_cases hk : k' = p.1
      · simp [beq_iff_eq, hk]
      · rw [beq_eq_false_iff_ne.mpr hk]
        exact ih

theorem lookup_append_single_ne {α β : Type} [DecidableEq α]
    (k : α) (v : β) (k' : α) (h : k' ≠ k) :
    ∀ (d : List (α × β)),
      List.lookup k' (d ++ [(k, v)]) = List.lookup k' d := by
  intro d
  induction d with
  | nil => simp [List.lookup, beq_eq_false_iff_ne.mpr h]
  | cons p d ih =>
    rw [List.cons_append, List.lookup, List.lookup]
    by_cases hk : k' = p.1
    · simp [beq_iff_eq, hk]
    · rw [beq_eq_false_iff_ne.mpr hk]
      exact ih

theorem lookup_dictInsert_ne {α β : Type} [DecidableEq α]
    (d : List (α × β)) (k k' : α) (v : β) (h : k' ≠ k) :
    List.lookup k' (dictInsert d k v) = List.lookup k' d := by
  unfold dictInsert
  by_cases hany : d.any (fun p => decide (p.1 = k)) = true
  · rw [if_pos hany]
    exact lookup_map_replace k v k' h d
  · rw [if_neg hany]
    exact lookup_append_single_ne k v k' h d

theorem lookup_dictInsert_self {α β : Type} [DecidableEq α]
    (d : List (α × β)) (k : α) (v : β) :
    List.lookup k (dictInsert d k v) = some v := by
  induction d with
  | nil => simp [dictInsert, List.lookup]
  | cons p d ih =>
    by_cases hp : p.1 = k
    · have hany : (p :: d).any (fun q => decide (q.1 = k)) = true := by
        simp [List.any_cons, hp]
      rw [dictInsert, if_pos hany, List.map_cons, if_pos hp, List.lookup]
      simp
    · have hhead : (k == p.1) = false := beq_eq_false_iff_ne.mpr fun he => hp he.symm
      by_cases hd : d.any (fun q => decide (q.1 = k)) = true
      · have hany : (p :: d).any (fun q => decide (q.1 = k)) = true := by
          simp [List.any_cons, hd]
        rw [dictInsert, if_pos hany, List.map_cons, if_neg hp, List.lookup, hhead]
        rw [dictInsert, if_pos hd] at ih
        exact ih
      · have hany : ¬((p :: d).any (fun q => decide (q.1 = k)) = true) := by
          simp only [List.any_cons, Bool.or_eq_true, not_or]
          exact ⟨by simp [hp], fun hc => hd hc⟩
        rw [dictInsert, if_neg hany, List.cons_append, List.lookup, hhead]
        rw [dictInsert, if_neg hd] at ih
        exact ih

/-! ### Claim C5 — destructive-clear guard -/

/-- C5: the train command's output-directory clearing is guarded — for
every existing output directory whose resolved absolute path has two or
fewer path segments the clear is refused with a fatal error, and for
every resolved path with more than two segments the clear proceeds. -/
theorem clear_guard_refuses_shallow_paths (p : String) :
    ((pathParts p).length ≤ 2 →
      ∃ m, clearOutputDirGuard p = .error m)
    ∧ (2 < (pathParts p).length → clearOutputDirGuard p = .ok ()) := by
  constructor
  · intro h
    refine ⟨"Path " ++ p ++ " is too close to root dir to delete", ?_⟩
    unfold clearOutputDirGuard
    rw [if_pos h]
  · intro h
    unfold clearOutputDirGuard
    rw [if_neg (Nat.not_le.mpr h)]

/-- C5 witness: `"/"` (one segment) and `"/tmp"` (two segments) are
refused, while `"/tmp/a/b/exp1"` (five segments) proceeds. -/
theorem clear_guard_refuses_shallow_paths_witness :
    (∃ m, clearOutputDirGuard "/" = .error m)
    ∧ (∃ m, clearOutputDirGuard "/tmp" = .error m)
    ∧ clearOutputDirGuard "/tmp/a/b/exp1" = .ok () :=
  ⟨(clear_guard_refuses_shallow_paths "/").1 (by decide),
   (clear_guard_refuses_shallow_paths "/tmp").1 (by decide),
   (clear_guard_refuses_shallow_paths "/tmp/a/b/exp1").2 (by decide)⟩

/-! ### Claim C8 — embedding-type dispatch -/

/-- C8 counterexample: the claim says every embedding-type value outside
`{w2v_frozen, w2v_trained, denovo}` fails with a `ValueError`, but the
dispatch tests `startswith('w2v')`, so the out-of-enum value `"w2v"` is
accepted and routed to the pretrained-vector branch. -/
theorem wordEmbeddingDispatch_accepts_bare_w2v :
    wordEmbeddingDispatch "w2v" 50000 = .ok (.loadW2V 50000)
    ∧ "w2v" ≠ "w2v_frozen" ∧ "w2v" ≠ "w2v_trained" ∧ "w2v" ≠ "denovo" := by
  refine ⟨rfl, by decide, by decide, by decide⟩

/-- C8 (amended): any embedding type starting with `"w2v"` — in
particular `w2v_frozen` and `w2v_trained` — loads the pretrained
word-vector table bounded by the configured vocabulary limit, `denovo`
builds the vocabulary from the training dataset, and every value that
neither starts with `"w2v"` nor equals `"denovo"` fails with a
`ValueError`-class config error. -/
theorem wordEmbeddingDispatch_total (t : String) (limit : Nat) :
    (pyStartsWith t "w2v" = true →
      wordEmbeddingDispatch t limit = .ok (.loadW2V limit))
    ∧ (t = "denovo" →
      wordEmbeddingDispatch t limit = .ok .buildDenovoFromTrain)
    ∧ (pyStartsWith t "w2v" = false → t ≠ "denovo" →
      wordEmbeddingDispatch t limit =
        .error ("Word embedding type " ++ t ++ " not valid")) := by
  refine ⟨?_, ?_, ?_⟩
  · intro h
    unfold wordEmbeddingDispatch
    rw [if_pos h]
  · intro h
    subst h
    rfl
  · intro h1 h2
    unfold wordEmbeddingDispatch
    rw [if_neg (by simp [h1]), if_neg h2]

/-- C8 witness: the three enum values dispatch to their branches and an
out-of-enum value not starting with `"w2v"` raises the config error. -/
theorem wordEmbeddingDispatch_total_witness :
    wordEmbeddingDispatch "w2v_frozen" 50000 = .ok (.loadW2V 50000)
    ∧ wordEmbeddingDispatch "w2v_trained" 50000 = .ok (.loadW2V 50000)
    ∧ wordEmbeddingDispatch "denovo" 50000 = .ok .buildDenovoFromTrain
    ∧ wordEmbeddingDispatch "bert" 50000 =
        .error ("Word embedding type " ++ "bert" ++ " not valid") :=
  ⟨(wordEmbeddingDispatch_total "w2v_frozen" 50000).1 (by decide),
   (wordEmbeddingDispatch_total "w2v_trained" 50000).1 (by decide),
   (wordEmbeddingDispatch_total "denovo" 50000).2.1 rfl,
   (wordEmbeddingDispatch_total "bert" 50000).2.2 (by decide) (by decide)⟩

/-! ### Claim C1 — learning-rate scheduling on validation F1

The source constructs `ReduceLROnPlateau(optimizer, mode='min',
factor=0.25, patience=lr_patience, threshold=0.01)` and feeds it the
validation F1.  In `mode='min'` a *decrease* counts as improvement, so a
monotonically improving F1 still exhausts the patience window and the
learning rate is cut — the opposite of the claimed behaviour. -/

/-- Validation F1 oracle for the C1 run: F1 of epoch `e` is `e/100`, a
relative gain of well over the 1% threshold every epoch. -/
def c1ValF1 (e : Nat) : ℚ := (e : ℚ) / 100

set_option maxRecDepth 16000 in
/-- C1: with validation F1 improving by more than the 1% relative
threshold at every one of 27 epochs (so the claim demands the learning
rate stay untouched), the supervise loop with the source's scheduler
still cuts the learning rate by the factor 0.25 — because the scheduler
runs in `mode='min'` on a metric that improves upward. -/
theorem scheduler_cuts_lr_despite_f1_improvement :
    ((List.range' 1 26).all fun e =>
      decide (c1ValF1 e * (1 + 1/100) < c1ValF1 (e + 1))) = true
    ∧ (superviseLoop c1ValF1 c1ValF1 25 25 27 (1/200)).sched.lr = 1/800
    ∧ ¬((superviseLoop c1ValF1 c1ValF1 25 25 27 (1/200)).sched.lr = 1/200) := by
  refine ⟨?_, ?_, ?_⟩
  · with_unfolding_all decide
  · with_unfolding_all decide
  · with_unfolding_all decide

/-! ### Claim C7 — exactly one test prediction set -/

/-- C7: whichever way the training run completes, exactly one final test
evaluation runs and contributes exactly one aggregated prediction set,
which `supervise` returns; and the final consistency check succeeds
precisely when the number of collected prediction sets is one, failing
with the fatal internal-consistency error otherwise. -/
theorem supervise_single_test_prediction_set
    (trainF1 valF1 testF1 : Nat → ℚ) (testPreds : PredSet) (lr : ℚ)
    (maxEpochs esPatience lrPatience : Nat) :
    (superviseComplete testF1 testPreds
      (superviseLoop trainF1 valF1 esPatience lrPatience maxEpochs lr)).2.length = 1
    ∧ supervise trainF1 valF1 testF1 testPreds lr maxEpochs esPatience lrPatience =
        .ok ((superviseComplete testF1 testPreds
          (superviseLoop trainF1 valF1 esPatience lrPatience maxEpochs lr)).1.history,
          testPreds)
    ∧ ∀ (history : List HistRecord) (tps : List PredSet),
        (∃ r, superviseFinalize history tps = .ok r) ↔ tps.length = 1 := by
  refine ⟨rfl, rfl, ?_⟩
  intro history tps
  constructor
  · rintro ⟨r, hr⟩
    cases tps with
    | nil => exact absurd hr (by simp [superviseFinalize])
    | cons p rest =>
      cases rest with
      | nil => rfl
      | cons q rest2 => exact absurd hr (by simp [superviseFinalize])
  · intro h
    cases tps with
    | nil => exact absurd h (by simp)
    | cons p rest =>
      cases rest with
      | nil => exact ⟨(history, p), rfl⟩
      | cons q rest2 => simp at h

/-- C7 witness: a concrete three-epoch run collects exactly one test
prediction set. -/
theorem supervise_single_test_prediction_set_witness :
    (superviseComplete (fun _ => 0) ([] : PredSet)
      (superviseLoop (fun _ => 0) (fun _ => 0) 25 25 3 1)).2.length = 1 :=
  (supervise_single_test_prediction_set
    (fun _ => 0) (fun _ => 0) (fun _ => 0) [] 1 3 25 25).1

/-! ### Claim C3 — label-range assertion -/

theorem checkLabels_ok_iff (df : List FeatureRow) :
    checkLabels df = .ok df ↔ ∀ r ∈ df, 0 ≤ r.label ∧ r.label ≤ 1 := by
  unfold checkLabels
  by_cases h : (df.all fun r => decide (0 ≤ r.label ∧ r.label ≤ 1)) = true
  · rw [if_pos h]
    simp only [List.all_eq_true, decide_eq_true_eq] at h
    exact ⟨fun _ => h, fun _ => rfl⟩
  · rw [if_neg h]
    constructor
    · intro hc
      exact absurd hc (by simp)
    · intro hall
      exact absurd (by simpa [List.all_eq_true] using hall) h

theorem firstDedup_ne_nil {α : Type} [DecidableEq α] (l : List α)
    (h : l ≠ []) : firstDedup l ≠ [] := by
  cases l with
  | nil => exact absurd rfl h
  | cons x xs => simp [firstDedup, firstDedupAux]

theorem checkLabels_error_of_violation (df : List FeatureRow)
    (hex : ∃ r ∈ df, ¬(0 ≤ r.label ∧ r.label ≤ 1)) :
    ∃ ex, checkLabels df = .error (.labelAssertion ex) ∧ ex ≠ []
      ∧ ex.length ≤ 10 ∧ ∀ l ∈ ex, ¬(0 ≤ l ∧ l ≤ 1) := by
  obtain ⟨r, hr, hviol⟩ := hex
  have hnall : ¬((df.all fun r => decide (0 ≤ r.label ∧ r.label ≤ 1)) = true) := by
    simp only [List.all_eq_true, decide_eq_true_eq, not_forall]
    exact ⟨r, hr, hviol⟩
  refine ⟨(firstDedup ((df.filter fun s => !decide (0 ≤ s.label ∧ s.label ≤ 1)).map
      fun s => s.label)).take 10, ?_, ?_, ?_, ?_⟩
  · unfold checkLabels
    rw [if_neg hnall]
  · have hmem : r.label ∈ ((df.filter fun s => !decide (0 ≤ s.label ∧ s.label ≤ 1)).map
        fun s => s.label) :=
      List.mem_map.mpr ⟨r, List.mem_filter.mpr ⟨hr, by simp [hviol]⟩, rfl⟩
    have hne := firstDedup_ne_nil _ (List.ne_nil_of_mem hmem)
    cases hd : firstDedup ((df.filter fun s => !decide (0 ≤ s.label ∧ s.label ≤ 1)).map
        fun s => s.label) with
    | nil => exact absurd hd hne
    | cons x xs => simp [hd]
  · exact List.length_take_le 10 _
  · intro l hl
    have hl' := mem_firstDedup.mp (List.take_subset 10 _ hl)
    obtain ⟨s, hs, hsl⟩ := List.mem_map.mp hl'
    have := (List.mem_filter.mp hs).2
    simp only [Bool.not_eq_eq_eq_not, Bool.not_true, decide_eq_false_iff_not] at this
    exact hsl ▸ this

theorem assembleRow_error_not_label (df : List FeatureRow) (s : String)
    (cid : Int) (e : DataError) (h : assembleRow df s cid = .error e) :
    ∀ ex, e ≠ .labelAssertion ex := by
  unfold assembleRow at h
  cases hd : dfiLoc df cid with
  | nil =>
    rw [hd] at h
    simp only [Except.error.injEq] at h
    subst h
    intro ex hc
    cases hc
  | cons r rest =>
    cases rest with
    | nil =>
      rw [hd] at h
      exact absurd h (by simp)
    | cons r2 rest2 =>
      rw [hd] at h
      simp only [Except.error.injEq] at h
      subst h
      intro ex hc
      cases hc

theorem assembleSplit_error_not_label (df : List FeatureRow) (s : String) :
    ∀ (cids : List Int) (e : DataError),
      assembleSplit df s cids = .error e → ∀ ex, e ≠ .labelAssertion ex := by
  intro cids
  induction cids with
  | nil =>
    intro e h
    exact absurd h (by simp [assembleSplit])
  | cons c cs ih =>
    intro e h
    rw [assembleSplit] at h
    cases hr : assembleRow df s c with
    | error e0 =>
      rw [hr] at h
      simp only [Except.error.injEq] at h
      exact h ▸ assembleRow_error_not_label df s c e0 hr
    | ok r =>
      rw [hr] at h
      cases hs : assembleSplit df s cs with
      | error e1 =>
        rw [hs] at h
        simp only [Except.error.injEq] at h
        exact h ▸ ih e1 hs
      | ok rs =>
        rw [hs] at h
        exact absurd h (by simp)

theorem assembleRows_error_not_label (df : List FeatureRow) :
    ∀ (splits : List (String × List Int)) (e : DataError),
      assembleRows df splits = .error e → ∀ ex, e ≠ .labelAssertion ex := by
  intro splits
  induction splits with
  | nil =>
    intro e h
    exact absurd h (by simp [assembleRows])
  | cons p ps ih =>
    intro e h
    rw [assembleRows] at h
    cases hr : assembleSplit df p.1 p.2 with
    | error e0 =>
      rw [hr] at h
      simp only [Except.error.injEq] at h
      exact h ▸ assembleSplit_error_not_label df p.1 p.2 e0 hr
    | ok rs =>
      rw [hr] at h
      cases hs : assembleRows df ps with
      | error e1 =>
        rw [hs] at h
        simp only [Except.error.injEq] at h
        exact h ▸ ih e1 hs
      | ok rest =>
        rw [hs] at h
        exact absurd h (by simp)

/-- C3: during feature building, any row label outside `[0, 1]` aborts
the whole `_datasets` run with the `AssertionError` carrying at most 10
offending (all genuinely out-of-range) example values, while a table
whose labels all lie in `[0, 1]` passes the check with every row kept
and can never produce that failure. -/
theorem label_out_of_range_aborts (df : List FeatureRow)
    (splits : List (String × List Int)) :
    ((∀ r ∈ df, 0 ≤ r.label ∧ r.label ≤ 1) →
      checkLabels df = .ok df
      ∧ ∀ ex, ¬(datasetsPipeline df splits = .error (.labelAssertion ex)))
    ∧ ((∃ r ∈ df, ¬(0 ≤ r.label ∧ r.label ≤ 1)) →
      ∃ ex, datasetsPipeline df splits = .error (.labelAssertion ex)
        ∧ ex ≠ [] ∧ ex.length ≤ 10 ∧ ∀ l ∈ ex, ¬(0 ≤ l ∧ l ≤ 1)) := by
  constructor
  · intro hall
    have hok := (checkLabels_ok_iff df).mpr hall
    refine ⟨hok, ?_⟩
    intro ex hc
    have hp : datasetsPipeline df splits =
        match assembleRows df splits with
        | .error e => .error e
        | .ok rows => .ok (groupRows rows) := by
      unfold datasetsPipeline
      rw [hok]
    cases ha : assembleRows df splits with
    | error e =>
      rw [ha] at hp
      rw [hp] at hc
      simp only [Except.error.injEq] at hc
      exact assembleRows_error_not_label df splits e ha ex hc
    | ok rows =>
      rw [ha] at hp
      rw [hp] at hc
      exact absurd hc (by simp)
  · intro hex
    obtain ⟨ex, hce, h1, h2, h3⟩ := checkLabels_error_of_violation df hex
    refine ⟨ex, ?_, h1, h2, h3⟩
    unfold datasetsPipeline
    rw [hce]

/-- Feature table with all labels inside `[0, 1]`, for the C3 witness. -/
def c3GoodDf : List FeatureRow :=
  [⟨1, ["il-2", "induces"], 0, [0, 1], [2, 1]⟩,
   ⟨2, ["th17", "cells"], 1, [0, 1], [2, 1]⟩]

/-- Feature table with one out-of-range label, for the C3 witness. -/
def c3BadDf : List FeatureRow :=
  [⟨1, ["il-2", "induces"], 0, [0, 1], [2, 1]⟩,
   ⟨2, ["th17", "cells"], 2, [0, 1], [2, 1]⟩]

/-- C3 witness: the in-range table passes the check and the table with
label `2` aborts the pipeline with the label assertion. -/
theorem label_out_of_range_aborts_witness :
    (checkLabels c3GoodDf = .ok c3GoodDf
      ∧ ∀ ex, ¬(datasetsPipeline c3GoodDf [("train", [1])] =
          .error (.labelAssertion ex)))
    ∧ ∃ ex, datasetsPipeline c3BadDf [("train", [1])] =
          .error (.labelAssertion ex)
        ∧ ex ≠ [] ∧ ex.length ≤ 10 ∧ ∀ l ∈ ex, ¬(0 ≤ l ∧ l ≤ 1) :=
  ⟨(label_out_of_range_aborts c3GoodDf [("train", [1])]).1 (by decide),
   (label_out_of_range_aborts c3BadDf [("train", [1])]).2
     ⟨⟨2, ["th17", "cells"], 2, [0, 1], [2, 1]⟩, by decide, by decide⟩⟩

/-! ### Claim C2 — total row count across split datasets -/

theorem assembleSplit_ok_of_unique (df : List FeatureRow) (s : String)
    (cids : List Int) (h : ∀ cid ∈ cids, (dfiLoc df cid).length = 1) :
    ∃ rs, assembleSplit df s cids = .ok rs ∧ rs.length = cids.length
      ∧ ∀ r ∈ rs, r.2 = s := by
  induction cids with
  | nil => exact ⟨[], rfl, rfl, by simp⟩
  | cons c cs ih =>
    obtain ⟨r, hr⟩ := List.length_eq_one.mp (h c (by simp))
    obtain ⟨rs, hrs, hlen, htag⟩ := ih fun cid hm => h cid (by simp [hm])
    refine ⟨(r, s) :: rs, ?_, by simp [hlen], ?_⟩
    · rw [assembleSplit]
      unfold assembleRow
      rw [hr, hrs]
    · intro x hx
      rcases List.mem_cons.mp hx with hx | hx
      · rw [hx]
      · exact htag x hx

theorem assembleRows_ok_of_unique (df : List FeatureRow)
    (splits : List (String × List Int))
    (h : ∀ p ∈ splits, ∀ cid ∈ p.2, (dfiLoc df cid).length = 1) :
    ∃ rows, assembleRows df splits = .ok rows
      ∧ rows.length = (splits.map fun p => p.2.length).sum := by
  induction splits with
  | nil => exact ⟨[], rfl, rfl⟩
  | cons p ps ih =>
    obtain ⟨rs, hrs, hlen, _⟩ :=
      assembleSplit_ok_of_unique df p.1 p.2 (h p (by simp))
    obtain ⟨rest, hrest, hrlen⟩ := ih fun q hq cid hc => h q (by simp [hq]) cid hc
    refine ⟨rs ++ rest, ?_, ?_⟩
    · rw [assembleRows, hrs, hrest]
    · simp [hlen, hrlen]

theorem sum_group_filter :
    ∀ (keys : List String) (rows : List (FeatureRow × String)),
      keys.Nodup → (∀ r ∈ rows, r.2 ∈ keys) →
      (keys.map fun k => (rows.filter fun r => decide (r.2 = k)).length).sum =
        rows.length := by
  intro keys
  induction keys with
  | nil =>
    intro rows _ hcov
    cases rows with
    | nil => simp
    | cons r rs => exact absurd (hcov r (by simp)) (by simp)
  | cons k ks ih =>
    intro rows hnd hcov
    have hks : k ∉ ks := (List.nodup_cons.mp hnd).1
    have hnd' : ks.Nodup := (List.nodup_cons.mp hnd).2
    have hcov' : ∀ r ∈ rows.filter fun r => !decide (r.2 = k), r.2 ∈ ks := by
      intro r hr
      have hmem := List.mem_filter.mp hr
      rcases List.mem_cons.mp (hcov r hmem.1) with he | he
      · exfalso
        have := hmem.2
        simp [he] at this
      · exact he
    have hih := ih (rows.filter fun r => !decide (r.2 = k)) hnd' hcov'
    have hmapeq :
        (ks.map fun k2 => (rows.filter fun r => decide (r.2 = k2)).length) =
          ks.map fun k2 =>
            ((rows.filter fun r => !decide (r.2 = k)).filter
              fun r => decide (r.2 = k2)).length := by
      refine List.map_congr_left ?_
      intro k2 hk2
      have hkk : k2 ≠ k := fun he => hks (he ▸ hk2)
      congr 1
      rw [List.filter_filter]
      refine List.filter_congr ?_
      intro r _
      by_cases hrk : r.2 = k2
      · simp [hrk, hkk]
      · simp [hrk]
    rw [List.map_cons, List.sum_cons, hmapeq, hih]
    exact length_filter_add_not (fun r => decide (r.2 = k)) rows

/-- C2: when every candidate id referenced by the splits matches exactly
one feature row, the Dataset Assembler succeeds and the total row count
across all split datasets equals the sum of the per-split candidate-id
list lengths — ids repeated across splits contribute one row per
occurrence. -/
theorem datasets_total_row_count (df : List FeatureRow)
    (splits : List (String × List Int))
    (h : ∀ p ∈ splits, ∀ cid ∈ p.2, (dfiLoc df cid).length = 1) :
    ∃ rows, assembleRows df splits = .ok rows
      ∧ rows.length = (splits.map fun p => p.2.length).sum
      ∧ ((groupRows rows).map fun g => g.2.length).sum =
          (splits.map fun p => p.2.length).sum := by
  obtain ⟨rows, hrows, hlen⟩ := assembleRows_ok_of_unique df splits h
  refine ⟨rows, hrows, hlen, ?_⟩
  rw [← hlen]
  unfold groupRows
  rw [List.map_map]
  have hmap :
      ((firstDedup (rows.map fun r => r.2)).map
        ((fun g : String × List FeatureRow => g.2.length) ∘
          fun k => (k, (rows.filter fun r => decide (r.2 = k)).map fun r => r.1))) =
        (firstDedup (rows.map fun r => r.2)).map
          fun k => (rows.filter fun r => decide (r.2 = k)).length := by
    refine List.map_congr_left ?_
    intro k _
    simp
  rw [hmap]
  exact sum_group_filter (firstDedup (rows.map fun r => r.2)) rows
    (nodup_firstDedup _)
    (fun r hr => mem_firstDedup.mpr (List.mem_map.mpr ⟨r, hr, rfl⟩))

/-- Feature table for the C2 witness. -/
def c2Df : List FeatureRow :=
  [⟨1, ["a"], 0, [0], [0]⟩, ⟨2, ["b"], 1, [0], [0]⟩, ⟨3, ["c"], 0, [0], [0]⟩]

/-- Split mapping for the C2 witness; candidate 1 appears in two splits
and is counted once per split. -/
def c2Splits : List (String × List Int) :=
  [("train", [1, 2]), ("val", [1]), ("test", [3])]

/-- C2 witness: on the concrete table the assembler succeeds and both
counts equal `2 + 1 + 1 = 4`. -/
theorem datasets_total_row_count_witness :
    ∃ rows, assembleRows c2Df c2Splits = .ok rows
      ∧ rows.length = (c2Splits.map fun p => p.2.length).sum
      ∧ ((groupRows rows).map fun g => g.2.length).sum =
          (c2Splits.map fun p => p.2.length).sum :=
  datasets_total_row_count c2Df c2Splits (by decide)

/-! ### Claim C4 — denovo vocabulary built from the training split only -/

theorem checkLabels_ok_eq (df df' : List FeatureRow)
    (h : checkLabels df = .ok df') : df' = df := by
  unfold checkLabels at h
  by_cases hc : (df.all fun r => decide (0 ≤ r.label ∧ r.label ≤ 1)) = true
  · rw [if_pos hc] at h
    simp only [Except.ok.injEq] at h
    exact h.symm
  · rw [if_neg hc] at h
    exact absurd h (by simp)

theorem assembleRow_ok_tag (df : List FeatureRow) (s : String) (cid : Int)
    (r : FeatureRow × String) (h : assembleRow df s cid = .ok r) : r.2 = s := by
  unfold assembleRow at h
  cases hd : dfiLoc df cid with
  | nil =>
    rw [hd] at h
    exact absurd h (by simp)
  | cons x rest =>
    cases rest with
    | nil =>
      rw [hd] at h
      simp only [Except.ok.injEq] at h
      rw [← h]
    | cons y rest2 =>
      rw [hd] at h
      exact absurd h (by simp)

theorem assembleSplit_tags (df : List FeatureRow) (s : String) :
    ∀ (cids : List Int) (rs : List (FeatureRow × String)),
      assembleSplit df s cids = .ok rs → ∀ r ∈ rs, r.2 = s := by
  intro cids
  induction cids with
  | nil =>
    intro rs h r hr
    rw [assembleSplit] at h
    simp only [Except.ok.injEq] at h
    subst h
    cases hr
  | cons c cs ih =>
    intro rs h r hr
    rw [assembleSplit] at h
    cases ha : assembleRow df s c with
    | error e =>
      rw [ha] at h
      exact absurd h (by simp)
    | ok r0 =>
      rw [ha] at h
      cases hs : assembleSplit df s cs with
      | error e =>
        rw [hs] at h
        exact absurd h (by simp)
      | ok rs0 =>
        rw [hs] at h
        simp only [Except.ok.injEq] at h
        subst h
        rcases List.mem_cons.mp hr with hr | hr
        · exact hr ▸ assembleRow_ok_tag df s c r0 ha
        · exact ih rs0 hs r hr

theorem assembleRows_tags (df : List FeatureRow) :
    ∀ (splits : List (String × List Int)) (rows : List (FeatureRow × String)),
      assembleRows df splits = .ok rows →
      ∀ r ∈ rows, r.2 ∈ splits.map fun p => p.1 := by
  intro splits
  induction splits with
  | nil =>
    intro rows h r hr
    rw [assembleRows] at h
    simp only [Except.ok.injEq] at h
    subst h
    cases hr
  | cons p ps ih =>
    intro rows h r hr
    rw [assembleRows] at h
    cases h0 : assembleSplit df p.1 p.2 with
    | error e =>
      rw [h0] at h
      exact absurd h (by simp)
    | ok rs0 =>
      rw [h0] at h
      cases h1 : assembleRows df ps with
      | error e =>
        rw [h1] at h
        exact absurd h (by simp)
      | ok rest =>
        rw [h1] at h
        simp only [Except.ok.injEq] at h
        subst h
        rcases List.mem_append.mp hr with hr | hr
        · exact List.mem_cons.mpr (Or.inl (assembleSplit_tags df p.1 p.2 rs0 h0 r hr))
        · exact List.mem_cons.mpr (Or.inr (ih rest h1 r hr))

theorem assembleSplit_congr (df1 df2 : List FeatureRow) (s : String) :
    ∀ (cids : List Int), (∀ cid ∈ cids, dfiLoc df1 cid = dfiLoc df2 cid) →
      assembleSplit df1 s cids = assembleSplit df2 s cids := by
  intro cids
  induction cids with
  | nil => intro _; rfl
  | cons c cs ih =>
    intro h
    rw [assembleSplit, assembleSplit]
    have hrow : assembleRow df1 s c = assembleRow df2 s c := by
      unfold assembleRow
      rw [h c (by simp)]
    rw [hrow, ih fun cid hm => h cid (by simp [hm])]

theorem filter_assembleRows (df : List FeatureRow) :
    ∀ (splits : List (String × List Int)) (rows : List (FeatureRow × String))
      (s : String) (cids : List Int),
      assembleRows df splits = .ok rows →
      (splits.map fun p => p.1).Nodup →
      List.lookup s splits = some cids →
      ∃ rs, assembleSplit df s cids = .ok rs
        ∧ rows.filter (fun r => decide (r.2 = s)) = rs := by
  intro splits
  induction splits with
  | nil =>
    intro rows s cids _ _ hl
    simp [List.lookup] at hl
  | cons p ps ih =>
    obtain ⟨k, v⟩ := p
    intro rows s cids hrows hnd hl
    rw [assembleRows] at hrows
    cases h0 : assembleSplit df k v with
    | error e =>
      rw [h0] at hrows
      exact absurd hrows (by simp)
    | ok rs0 =>
      rw [h0] at hrows
      cases h1 : assembleRows df ps with
      | error e =>
        rw [h1] at hrows
        exact absurd hrows (by simp)
      | ok rest =>
        rw [h1] at hrows
        simp only [Except.ok.injEq] at hrows
        have htags0 : ∀ r ∈ rs0, r.2 = k := assembleSplit_tags df k v rs0 h0
        have htagsrest : ∀ r ∈ rest, r.2 ∈ ps.map fun q => q.1 :=
          assembleRows_tags df ps rest h1
        have hndc : k ∉ (ps.map fun q => q.1) ∧ (ps.map fun q => q.1).Nodup := by
          rw [List.map_cons] at hnd
          exact List.nodup_cons.mp hnd
        by_cases hps : s = k
        · subst hps
          rw [List.lookup, beq_self_eq_true] at hl
          simp only [Option.some.injEq] at hl
          subst hl
          refine ⟨rs0, h0, ?_⟩
          rw [← hrows, List.filter_append]
          have hf0 : rs0.filter (fun r => decide (r.2 = s)) = rs0 :=
            List.filter_eq_self.mpr fun r hr => by simp [htags0 r hr]
          have hfrest : rest.filter (fun r => decide (r.2 = s)) = [] := by
            refine List.filter_eq_nil_iff.mpr ?_
            intro r hr
            have := htagsrest r hr
            simp only [decide_eq_true_eq]
            intro he
            exact hndc.1 (he ▸ this)
          rw [hf0, hfrest, List.append_nil]
        · rw [List.lookup, beq_eq_false_iff_ne.mpr hps] at hl
          obtain ⟨rs, hrs, hfil⟩ := ih rest s cids h1 hndc.2 hl
          refine ⟨rs, hrs, ?_⟩
          rw [← hrows, List.filter_append]
          have hf0 : rs0.filter (fun r => decide (r.2 = s)) = [] := by
            refine List.filter_eq_nil_iff.mpr ?_
            intro r hr
            simp only [decide_eq_true_eq]
            intro he
            exact hps (he.symm.trans (htags0 r hr))
          rw [hf0, hfil, List.nil_append]

theorem datasetsPipeline_ok_inv (df : List FeatureRow)
    (splits : List (String × List Int)) (ds : List (String × List FeatureRow))
    (h : datasetsPipeline df splits = .ok ds) :
    ∃ rows, assembleRows df splits = .ok rows ∧ ds = groupRows rows := by
  cases hc : checkLabels df with
  | error e =>
    have hstep : datasetsPipeline df splits = .error e := by
      unfold datasetsPipeline
      rw [hc]
    rw [hstep] at h
    exact absurd h (by simp)
  | ok df' =>
    have hdf : df' = df := checkLabels_ok_eq df df' hc
    rw [hdf] at hc
    have hstep : datasetsPipeline df splits =
        match assembleRows df splits with
        | .error e => .error e
        | .ok rows => .ok (groupRows rows) := by
      unfold datasetsPipeline
      rw [hc]
    cases ha : assembleRows df splits with
    | error e =>
      rw [ha] at hstep
      rw [hstep] at h
      exact absurd h (by simp)
    | ok rows =>
      rw [ha] at hstep
      rw [hstep] at h
      simp only [Except.ok.injEq] at h
      exact ⟨rows, rfl, h.symm⟩

theorem denovoVocab_ok_inv (df : List FeatureRow)
    (splits : List (String × List Int)) (v : List String)
    (h : denovoVocab df splits = .ok v) :
    ∃ rows g, assembleRows df splits = .ok rows
      ∧ List.lookup "train" (groupRows rows) = some g
      ∧ v = vocabItos (datasetTokens g) := by
  cases hp : datasetsPipeline df splits with
  | error e =>
    have hstep : denovoVocab df splits = .error e := by
      unfold denovoVocab
      rw [hp]
    rw [hstep] at h
    exact absurd h (by simp)
  | ok ds =>
    obtain ⟨rows, hrows, hds⟩ := datasetsPipeline_ok_inv df splits ds hp
    subst hds
    have hstep : denovoVocab df splits =
        match List.lookup "train" (groupRows rows) with
        | none => .error (.missingSplit "train")
        | some g => .ok (vocabItos (datasetTokens g)) := by
      unfold denovoVocab
      rw [hp]
    cases hl : List.lookup "train" (groupRows rows) with
    | none =>
      rw [hl] at hstep
      rw [hstep] at h
      exact absurd h (by simp)
    | some g =>
      rw [hl] at hstep
      rw [hstep] at h
      simp only [Except.ok.injEq] at h
      exact ⟨rows, g, hrows, hl, h.symm⟩

/-- C4: with the embedding type `denovo` the vocabulary depends on the
training split only — two runs whose `train` candidate-id list and whose
feature rows for those ids coincide produce identical vocabularies, no
matter how the other splits and the rest of the two feature tables
differ. -/
theorem denovo_vocab_train_only (df1 df2 : List FeatureRow)
    (splits1 splits2 : List (String × List Int)) (cids : List Int)
    (v1 v2 : List String)
    (h1 : List.lookup "train" splits1 = some cids)
    (h2 : List.lookup "train" splits2 = some cids)
    (hnd1 : (splits1.map fun p => p.1).Nodup)
    (hnd2 : (splits2.map fun p => p.1).Nodup)
    (hrow : ∀ cid ∈ cids, dfiLoc df1 cid = dfiLoc df2 cid)
    (hv1 : denovoVocab df1 splits1 = .ok v1)
    (hv2 : denovoVocab df2 splits2 = .ok v2) :
    v1 = v2 := by
  obtain ⟨rows1, g1, hrows1, hlk1, hveq1⟩ := denovoVocab_ok_inv df1 splits1 v1 hv1
  obtain ⟨rows2, g2, hrows2, hlk2, hveq2⟩ := denovoVocab_ok_inv df2 splits2 v2 hv2
  obtain ⟨rs1, hrs1, hfil1⟩ :=
    filter_assembleRows df1 splits1 rows1 "train" cids hrows1 hnd1 h1
  obtain ⟨rs2, hrs2, hfil2⟩ :=
    filter_assembleRows df2 splits2 rows2 "train" cids hrows2 hnd2 h2
  have hg1 : g1 = (rows1.filter fun r => decide (r.2 = "train")).map fun r => r.1 := by
    unfold groupRows at hlk1
    exact lookup_map_graph_inv _ _ _ _ hlk1
  have hg2 : g2 = (rows2.filter fun r => decide (r.2 = "train")).map fun r => r.1 := by
    unfold groupRows at hlk2
    exact lookup_map_graph_inv _ _ _ _ hlk2
  have hrs : rs1 = rs2 := by
    have hcongr := assembleSplit_congr df1 df2 "train" cids hrow
    rw [hrs1, hrs2] at hcongr
    simp only [Except.ok.injEq] at hcongr
    exact hcongr
  rw [hveq1, hveq2, hg1, hg2, hfil1, hfil2, hrs]

/-- Feature tables for the C4 witness: identical `train` rows (candidate
1), different rows elsewhere. -/
def c4Df1 : List FeatureRow :=
  [⟨1, ["il-2", "induces", "th17"], 1, [0, 1, 2], [2, 1, 0]⟩,
   ⟨2, ["validation", "text", "one"], 0, [0, 1, 2], [2, 1, 0]⟩]

/-- Second feature table for the C4 witness, differing from the first in
the non-train row. -/
def c4Df2 : List FeatureRow :=
  [⟨1, ["il-2", "induces", "th17"], 1, [0, 1, 2], [2, 1, 0]⟩,
   ⟨2, ["completely", "different", "words"], 1, [9, 9, 9], [9, 9, 9]⟩]

/-- C4 witness: both concrete runs succeed and the theorem forces their
vocabularies to coincide. -/
theorem denovo_vocab_train_only_witness :
    denovoVocab c4Df1 [("train", [1]), ("val", [2])] =
        .ok ["<unk>", "<pad>", "il-2", "induces", "th17"]
    ∧ denovoVocab c4Df2 [("train", [1]), ("val", [2]), ("test", [2])] =
        .ok ["<unk>", "<pad>", "il-2", "induces", "th17"]
    ∧ (["<unk>", "<pad>", "il-2", "induces", "th17"] : List String) =
        ["<unk>", "<pad>", "il-2", "induces", "th17"] :=
  ⟨by with_unfolding_all decide, by with_unfolding_all decide,
   denovo_vocab_train_only c4Df1 c4Df2
     [("train", [1]), ("val", [2])] [("train", [1]), ("val", [2]), ("test", [2])]
     [1] ["<unk>", "<pad>", "il-2", "induces", "th17"]
     ["<unk>", "<pad>", "il-2", "induces", "th17"]
     (by decide) (by decide) (by decide) (by decide) (by decide)
     (by with_unfolding_all decide) (by with_unfolding_all decide)⟩

/-! ### Claim C9 — marker/swap configuration resolution -/

theorem lookup_two_dict (typ0 typ1 : String) (v0 v1 : List String) :
    (∃ m, List.lookup typ0 (dictInsert (dictInsert [] typ0 v0) typ1 v1) = some m
      ∧ (m = v0 ∨ m = v1))
    ∧ List.lookup typ1 (dictInsert (dictInsert [] typ0 v0) typ1 v1) = some v1 := by
  constructor
  · by_cases h : typ1 = typ0
    · subst h
      exact ⟨v1, lookup_dictInsert_self _ _ _, Or.inr rfl⟩
    · refine ⟨v0, ?_, Or.inl rfl⟩
      rw [lookup_dictInsert_ne _ typ1 typ0 v1 fun he => h he.symm]
      exact lookup_dictInsert_self _ _ _
  · exact lookup_dictInsert_self _ _ _

theorem dict_pair_props (typ0 typ1 : String) (v0 v1 : List String)
    (h0 : v0.length = 2) (h1 : v1.length = 2) :
    (∃ m, List.lookup typ0 (dictInsert (dictInsert [] typ0 v0) typ1 v1) = some m
      ∧ m.length = 2)
    ∧ (∃ m, List.lookup typ1 (dictInsert (dictInsert [] typ0 v0) typ1 v1) = some m
      ∧ m.length = 2) := by
  obtain ⟨⟨m, hm, hc⟩, h2⟩ := lookup_two_dict typ0 typ1 v0 v1
  exact ⟨⟨m, hm, by rcases hc with rfl | rfl <;> assumption⟩, ⟨v1, h2, h1⟩⟩

theorem dict_pair_empty (typ0 typ1 : String) :
    List.lookup typ0 (dictInsert (dictInsert [] typ0 []) typ1 ([] : List String)) = some []
    ∧ List.lookup typ1 (dictInsert (dictInsert [] typ0 []) typ1 ([] : List String)) = some [] := by
  obtain ⟨⟨m, hm, hc⟩, h2⟩ := lookup_two_dict typ0 typ1 [] []
  refine ⟨?_, h2⟩
  rcases hc with rfl | rfl <;> exact hm

theorem get_modeling_config_of_lookup (name : String)
    (useSecondary useSwaps : Bool) (typ0 typ1 : String)
    (a0 b0 a1 b1 : String) (e2 e3 : MarkerEntry)
    (hv : List.lookup name MARKER_LISTS = some [some (a0, b0), some (a1, b1), e2, e3]) :
    get_modeling_config MARKER_LISTS name useSecondary (typ0, typ1) useSwaps =
      .ok ({ markers :=
               { primary := dictInsert (dictInsert [] typ0 [a0, b0]) typ1 [a1, b1],
                 secondary := dictInsert
                   (dictInsert [] typ0
                     (pyOrEmptyList (if useSecondary then e2 else none)))
                   typ1 (pyOrEmptyList (if useSecondary then e3 else none)) },
             swaps := if useSwaps then some DEFAULT_SWAPS else none },
           if useSecondary then MARKER_LISTS
           else registryUpdate MARKER_LISTS name
             [some (a0, b0), some (a1, b1), none, none]) := by
  unfold get_modeling_config
  rw [hv]
  cases useSecondary <;> rfl

theorem MARKER_LISTS_lookup_cases (name : String) (v : List MarkerEntry)
    (h : List.lookup name MARKER_LISTS = some v) :
    (name = "doub_01" ∧ v = [some ("<<", ">>"), some ("[[", "]]"),
        some ("##", "##"), some ("@@", "@@")])
    ∨ (name = "sngl_01" ∧ v = [some ("<", ">"), some ("[", "]"),
        some ("#", "#"), some ("@", "@")])
    ∨ (name = "mult_01" ∧ v = [some ("< #", "# >"), some ("< @", "@ >"),
        some ("| #", "# |"), some ("| @", "@")]) := by
  by_cases h1 : name = "doub_01"
  · subst h1
    have hc : List.lookup "doub_01" MARKER_LISTS =
        some [some ("<<", ">>"), some ("[[", "]]"),
          some ("##", "##"), some ("@@", "@@")] := rfl
    exact Or.inl ⟨rfl, (Option.some.inj (hc.symm.trans h)).symm⟩
  by_cases h2 : name = "sngl_01"
  · subst h2
    have hc : List.lookup "sngl_01" MARKER_LISTS =
        some [some ("<", ">"), some ("[", "]"),
          some ("#", "#"), some ("@", "@")] := rfl
    exact Or.inr (Or.inl ⟨rfl, (Option.some.inj (hc.symm.trans h)).symm⟩)
  by_cases h3 : name = "mult_01"
  · subst h3
    have hc : List.lookup "mult_01" MARKER_LISTS =
        some [some ("< #", "# >"), some ("< @", "@ >"),
          some ("| #", "# |"), some ("| @", "@")] := rfl
    exact Or.inr (Or.inr ⟨rfl, (Option.some.inj (hc.symm.trans h)).symm⟩)
  · exfalso
    have hnone : List.lookup name MARKER_LISTS = none := by
      unfold MARKER_LISTS
      rw [List.lookup, beq_eq_false_iff_ne.mpr h1,
        List.lookup, beq_eq_false_iff_ne.mpr h2,
        List.lookup, beq_eq_false_iff_ne.mpr h3]
      rfl
    rw [hnone] at h
    cases h

/-- C9: `get_modeling_config` fails for an unrecognized marker-list name
(`KeyError`, the spec's `ConfigError`); for a recognized name it resolves
a markers structure whose primary mapping sends each of the two entity
types to a 2-element open/close pair, whose secondary mappings are both
empty exactly when the use-secondary flag is off (and 2-element pairs
when it is on), and whose swaps entry is absent exactly when the
use-swaps flag is off. -/
theorem modeling_config_resolution (name : String)
    (useSecondary useSwaps : Bool) (typ0 typ1 : String) :
    (List.lookup name MARKER_LISTS = none →
      ∃ m, get_modeling_config MARKER_LISTS name useSecondary (typ0, typ1) useSwaps =
        .error m)
    ∧ (∀ v, List.lookup name MARKER_LISTS = some v →
      ∃ cfg reg2,
        get_modeling_config MARKER_LISTS name useSecondary (typ0, typ1) useSwaps =
          .ok (cfg, reg2)
        ∧ (∃ m, List.lookup typ0 cfg.markers.primary = some m ∧ m.length = 2)
        ∧ (∃ m, List.lookup typ1 cfg.markers.primary = some m ∧ m.length = 2)
        ∧ (useSecondary = false →
            List.lookup typ0 cfg.markers.secondary = some []
            ∧ List.lookup typ1 cfg.markers.secondary = some [])
        ∧ (useSecondary = true →
            (∃ m, List.lookup typ0 cfg.markers.secondary = some m ∧ m.length = 2)
            ∧ (∃ m, List.lookup typ1 cfg.markers.secondary = some m ∧ m.length = 2))
        ∧ (useSwaps = false → cfg.swaps = none)
        ∧ (useSwaps = true → cfg.swaps = some DEFAULT_SWAPS)) := by
  constructor
  · intro h
    refine ⟨"KeyError: " ++ name, ?_⟩
    unfold get_modeling_config
    rw [h]
  · intro v hv
    rcases MARKER_LISTS_lookup_cases name v hv with ⟨hn, hveq⟩ | ⟨hn, hveq⟩ | ⟨hn, hveq⟩ <;>
      subst hn <;> rw [hveq] at hv <;>
      refine ⟨_, _, get_modeling_config_of_lookup _ useSecondary useSwaps typ0 typ1
        _ _ _ _ _ _ hv, ?_, ?_, ?_, ?_, ?_, ?_⟩
    case _ => exact (dict_pair_props typ0 typ1 ["<<", ">>"] ["[[", "]]"] rfl rfl).1
    case _ => exact (dict_pair_props typ0 typ1 ["<<", ">>"] ["[[", "]]"] rfl rfl).2
    case _ =>
      intro hsec
      subst hsec
      exact dict_pair_empty typ0 typ1
    case _ =>
      intro hsec
      subst hsec
      exact dict_pair_props typ0 typ1 ["##", "##"] ["@@", "@@"] rfl rfl
    case _ =>
      intro hsw
      subst hsw
      rfl
    case _ =>
      intro hsw
      subst hsw
      rfl
    case _ => exact (dict_pair_props typ0 typ1 ["<", ">"] ["[", "]"] rfl rfl).1
    case _ => exact (dict_pair_props typ0 typ1 ["<", ">"] ["[", "]"] rfl rfl).2
    case _ =>
      intro hsec
      subst hsec
      exact dict_pair_empty typ0 typ1
    case _ =>
      intro hsec
      subst hsec
      exact dict_pair_props typ0 typ1 ["#", "#"] ["@", "@"] rfl rfl
    case _ =>
      intro hsw
      subst hsw
      rfl
    case _ =>
      intro hsw
      subst hsw
      rfl
    case _ => exact (dict_pair_props typ0 typ1 ["< #", "# >"] ["< @", "@ >"] rfl rfl).1
    case _ => exact (dict_pair_props typ0 typ1 ["< #", "# >"] ["< @", "@ >"] rfl rfl).2
    case _ =>
      intro hsec
      subst hsec
      exact dict_pair_empty typ0 typ1
    case _ =>
      intro hsec
      subst hsec
      exact dict_pair_props typ0 typ1 ["| #", "# |"] ["| @", "@"] rfl rfl
    case _ =>
      intro hsw
      subst hsw
      rfl
    case _ =>
      intro hsw
      subst hsw
      rfl

/-- C9 witness: the recognized name `mult_01` with both flags off
resolves with 2-element primary pairs, empty secondary mappings and no
swaps; the unrecognized name `bogus` errors. -/
theorem modeling_config_resolution_witness :
    (∃ cfg reg2,
      get_modeling_config MARKER_LISTS "mult_01" false ("a", "b") false =
        .ok (cfg, reg2)
      ∧ (∃ m, List.lookup "a" cfg.markers.primary = some m ∧ m.length = 2)
      ∧ (∃ m, List.lookup "b" cfg.markers.primary = some m ∧ m.length = 2)
      ∧ (false = false →
          List.lookup "a" cfg.markers.secondary = some []
          ∧ List.lookup "b" cfg.markers.secondary = some [])
      ∧ (false = true →
          (∃ m, List.lookup "a" cfg.markers.secondary = some m ∧ m.length = 2)
          ∧ (∃ m, List.lookup "b" cfg.markers.secondary = some m ∧ m.length = 2))
      ∧ (false = false → cfg.swaps = none)
      ∧ (false = true → cfg.swaps = some DEFAULT_SWAPS))
    ∧ (∃ m, get_modeling_config MARKER_LISTS "bogus" false ("a", "b") false =
        .error m) :=
  ⟨(modeling_config_resolution "mult_01" false false "a" "b").2
     [some ("< #", "# >"), some ("< @", "@ >"), some ("| #", "# |"), some ("| @", "@")]
     (by decide),
   (modeling_config_resolution "bogus" false false "a" "b").1 (by decide)⟩

/-! ### Claim C10 — the config builder mutates the global registry -/

/-- The registry value left behind after one `use_secondary=False` call
on `mult_01`: positions 2 and 3 of the aliased global list are `None`. -/
def c10Reg1 : MarkerRegistry :=
  [("doub_01", [some ("<<", ">>"), some ("[[", "]]"),
                some ("##", "##"), some ("@@", "@@")]),
   ("sngl_01", [some ("<", ">"), some ("[", "]"),
                some ("#", "#"), some ("@", "@")]),
   ("mult_01", [some ("< #", "# >"), some ("< @", "@ >"), none, none])]

/-- The configuration both C10 calls produce. -/
def c10Cfg : ModelingConfig :=
  { markers := { primary := [("a", ["< #", "# >"]), ("b", ["< @", "@ >"])],
                 secondary := [("a", []), ("b", [])] },
    swaps := some DEFAULT_SWAPS }

/-- C10: the claim says `get_modeling_config` leaves `MARKER_LISTS`
unchanged, so that a later `use_secondary=True` call still finds
non-empty secondary markers.  In the code `markers = MARKER_LISTS[...]`
aliases the registry value and `markers[2] = None; markers[3] = None`
mutates it in place: after one `use_secondary=False` call on `mult_01`
the registry differs from its initial value, and a second call with
`use_secondary=True` returns empty secondary marker lists for both
entity types. -/
theorem marker_registry_mutated_by_config_builder :
    get_modeling_config MARKER_LISTS "mult_01" false ("a", "b") true =
      .ok (c10Cfg, c10Reg1)
    ∧ c10Reg1 ≠ MARKER_LISTS
    ∧ List.lookup "mult_01" c10Reg1 =
        some [some ("< #", "# >"), some ("< @", "@ >"), none, none]
    ∧ get_modeling_config c10Reg1 "mult_01" true ("a", "b") true =
        .ok (c10Cfg, c10Reg1)
    ∧ List.lookup "a" c10Cfg.markers.secondary = some []
    ∧ List.lookup "b" c10Cfg.markers.secondary = some [] :=
  ⟨rfl, by decide, by decide, rfl, by decide, by decide⟩

/-! ### Claim C6 — checkpoint loading rejects duplicate components -/

/-- Files collected so far for component `c` in the grouped accumulator. -/
def getComp (gs : List (String × List String)) (c : String) : List String :=
  (List.lookup c gs).getD []

theorem lookup_mem {β : Type} (c : String) (b : β) :
    ∀ (gs : List (String × β)), List.lookup c gs = some b → (c, b) ∈ gs := by
  intro gs
  induction gs with
  | nil => intro h; cases h
  | cons p gs ih =>
    intro h
    rw [List.lookup] at h
    cases hbe : (c == p.1) with
    | true =>
      simp only [hbe] at h
      have hc := beq_iff_eq.mp hbe
      have hb := Option.some.inj h
      exact List.mem_cons.mpr (Or.inl (by rw [hc, ← hb]))
    | false =>
      simp only [hbe] at h
      exact List.mem_cons.mpr (Or.inr (ih h))

theorem lookup_eq_of_mem_nodup {β : Type} (c : String) (b : β) :
    ∀ (gs : List (String × β)), (gs.map fun g => g.1).Nodup → (c, b) ∈ gs →
      List.lookup c gs = some b := by
  intro gs
  induction gs with
  | nil => intro _ h; cases h
  | cons p gs ih =>
    intro hnd h
    simp only [List.map_cons] at hnd
    have hnd' := List.nodup_cons.mp hnd
    rcases List.mem_cons.mp h with he | hm
    · rw [← he]
      simp [List.lookup]
    · have hcne : c ≠ p.1 := by
        intro he2
        have hmap : c ∈ gs.map fun g => g.1 := List.mem_map.mpr ⟨(c, b), hm, rfl⟩
        exact hnd'.1 (he2 ▸ hmap)
      rw [List.lookup, beq_eq_false_iff_ne.mpr hcne]
      exact ih hnd'.2 hm

theorem lookup_addToComp_self (c f : String) :
    ∀ (gs : List (String × List String)),
      List.lookup c (addToComp c f gs) = some (f :: getComp gs c) := by
  intro gs
  induction gs with
  | nil => simp [addToComp, getComp, List.lookup]
  | cons g gs ih =>
    rw [addToComp]
    by_cases hg : g.1 = c
    · rw [if_pos hg]
      have hbe : (c == g.1) = true := beq_iff_eq.mpr hg.symm
      rw [List.lookup, hbe]
      show some (f :: g.2) = some (f :: getComp (g :: gs) c)
      unfold getComp
      rw [List.lookup, hbe]
      rfl
    · rw [if_neg hg]
      have hbe : (c == g.1) = false := beq_eq_false_iff_ne.mpr fun he => hg he.symm
      rw [List.lookup, hbe]
      show List.lookup c (addToComp c f gs) = some (f :: getComp (g :: gs) c)
      rw [ih]
      unfold getComp
      rw [List.lookup, hbe]

theorem lookup_addToComp_ne (c f c' : String) (hne : c' ≠ c) :
    ∀ (gs : List (String × List String)),
      List.lookup c' (addToComp c f gs) = List.lookup c' gs := by
  intro gs
  induction gs with
  | nil => simp [addToComp, List.lookup, beq_eq_false_iff_ne.mpr hne]
  | cons g gs ih =>
    rw [addToComp]
    by_cases hg : g.1 = c
    · rw [if_pos hg]
      have hbe : (c' == g.1) = false :=
        beq_eq_false_iff_ne.mpr fun he => hne (he.trans hg)
      rw [List.lookup, hbe, List.lookup, hbe]
    · rw [if_neg hg]
      rw [List.lookup, List.lookup]
      cases hbe : (c' == g.1) with
      | true => rfl
      | false => exact ih

theorem getComp_addToComp (c f c' : String) (gs : List (String × List String)) :
    getComp (addToComp c f gs) c' =
      if c' = c then f :: getComp gs c' else getComp gs c' := by
  by_cases h : c' = c
  · subst h
    rw [if_pos rfl]
    unfold getComp
    rw [lookup_addToComp_self]
    rfl
  · rw [if_neg h]
    unfold getComp
    rw [lookup_addToComp_ne c f c' h]

theorem mem_keys_addToComp (c f c' : String) :
    ∀ (gs : List (String × List String)),
      c' ∈ (addToComp c f gs).map (fun g => g.1) ↔
        c' ∈ gs.map (fun g => g.1) ∨ c' = c := by
  intro gs
  induction gs with
  | nil => simp [addToComp]
  | cons g gs ih =>
    rw [addToComp]
    by_cases hg : g.1 = c
    · rw [if_pos hg]
      simp only [List.map_cons, List.mem_cons]
      constructor
      · rintro (he | hm)
        · exact Or.inl (Or.inl he)
        · exact Or.inl (Or.inr hm)
      · rintro ((he | hm) | he)
        · exact Or.inl he
        · exact Or.inr hm
        · exact Or.inl (he.trans hg.symm)
    · rw [if_neg hg]
      simp only [List.map_cons, List.mem_cons]
      rw [ih]
      tauto

theorem nodup_keys_addToComp (c f : String) :
    ∀ (gs : List (String × List String)),
      (gs.map fun g => g.1).Nodup → ((addToComp c f gs).map fun g => g.1).Nodup := by
  intro gs
  induction gs with
  | nil =>
    intro _
    simp [addToComp]
  | cons g gs ih =>
    intro hnd
    simp only [List.map_cons] at hnd
    have hnd' := List.nodup_cons.mp hnd
    rw [addToComp]
    by_cases hg : g.1 = c
    · rw [if_pos hg]
      simp only [List.map_cons]
      exact List.nodup_cons.mpr hnd'
    · rw [if_neg hg]
      simp only [List.map_cons]
      refine List.nodup_cons.mpr ⟨?_, ih hnd'.2⟩
      intro hmem
      rcases (mem_keys_addToComp c f g.1 gs).mp hmem with hm | he
      · exact hnd'.1 hm
      · exact hg he

theorem nonempty_addToComp (c f : String) :
    ∀ (gs : List (String × List String)),
      (∀ g ∈ gs, g.2 ≠ []) → ∀ g ∈ addToComp c f gs, g.2 ≠ [] := by
  intro gs
  induction gs with
  | nil =>
    intro _ g hg
    rw [addToComp] at hg
    rcases List.mem_cons.mp hg with he | hm
    · rw [he]
      simp
    · cases hm
  | cons g0 gs ih =>
    intro hne g hg
    rw [addToComp] at hg
    by_cases hg0 : g0.1 = c
    · rw [if_pos hg0] at hg
      rcases List.mem_cons.mp hg with he | hm
      · rw [he]
        simp
      · exact hne g (List.mem_cons.mpr (Or.inr hm))
    · rw [if_neg hg0] at hg
      rcases List.mem_cons.mp hg with he | hm
      · exact he ▸ hne g0 (List.mem_cons.mpr (Or.inl rfl))
      · exact ih (fun g2 hg2 => hne g2 (List.mem_cons.mpr (Or.inr hg2))) g hm

theorem buildComps_inv :
    ∀ (fs : List String) (gs : List (String × List String)),
      buildComps fs = .ok gs →
      (∀ c, getComp gs c = fs.filter fun f => componentOf f == some c)
      ∧ ((gs.map fun g => g.1).Nodup)
      ∧ (∀ g ∈ gs, g.2 ≠ []) := by
  intro fs
  induction fs with
  | nil =>
    intro gs h
    rw [buildComps] at h
    simp only [Except.ok.injEq] at h
    subst h
    exact ⟨fun c => rfl, List.nodup_nil, by simp⟩
  | cons f fs ih =>
    intro gs h
    rw [buildComps] at h
    cases hcomp : componentOf f with
    | none =>
      rw [hcomp] at h
      exact absurd h (by simp)
    | some c0 =>
      rw [hcomp] at h
      cases hbc : buildComps fs with
      | error e =>
        rw [hbc] at h
        exact absurd h (by simp)
      | ok gs0 =>
        rw [hbc] at h
        simp only [Except.ok.injEq] at h
        subst h
        obtain ⟨hget, hnd, hne⟩ := ih gs0 hbc
        refine ⟨?_, nodup_keys_addToComp c0 f gs0 hnd,
          nonempty_addToComp c0 f gs0 hne⟩
        intro c
        rw [getComp_addToComp, List.filter_cons]
        by_cases hc : c = c0
        · subst hc
          have hp : (componentOf f == some c) = true := by
            rw [hcomp]
            exact beq_self_eq_true _
          rw [if_pos rfl, if_pos hp, hget c]
        · have hp : (componentOf f == some c) = false := by
            rw [hcomp]
            exact beq_eq_false_iff_ne.mpr fun he => hc (Option.some.inj he).symm
          rw [if_neg hc, if_neg (by simp [hp]), hget c]

theorem buildComps_ok (fs : List String)
    (hall : ∀ f ∈ fs, (componentOf f).isSome) :
    ∃ gs, buildComps fs = .ok gs := by
  induction fs with
  | nil => exact ⟨[], rfl⟩
  | cons f fs ih =>
    obtain ⟨c, hcomp⟩ := Option.isSome_iff_exists.mp (hall f (by simp))
    obtain ⟨gs0, hbc⟩ := ih fun f2 hf2 => hall f2 (by simp [hf2])
    refine ⟨addToComp c f gs0, ?_⟩
    rw [buildComps, hcomp, hbc]

theorem nodup_component_le_one :
    ∀ (fs : List String), (fs.map componentOf).Nodup →
      ∀ c, (fs.filter fun f => componentOf f == some c).length ≤ 1 := by
  intro fs
  induction fs with
  | nil =>
    intro _ c
    simp
  | cons f fs ih =>
    intro hnd c
    rw [List.map_cons] at hnd
    have hnd' := List.nodup_cons.mp hnd
    rw [List.filter_cons]
    by_cases hp : (componentOf f == some c) = true
    · rw [if_pos hp]
      have hfc : componentOf f = some c := beq_iff_eq.mp hp
      have hnil : fs.filter (fun f2 => componentOf f2 == some c) = [] := by
        refine List.filter_eq_nil_iff.mpr ?_
        intro f2 hf2 hp2
        have : componentOf f2 = componentOf f := (beq_iff_eq.mp hp2).trans hfc.symm
        exact hnd'.1 (this ▸ List.mem_map.mpr ⟨f2, hf2, rfl⟩)
      rw [hnil]
      simp
    · rw [if_neg hp]
      exact ih hnd'.2 c

theorem dup_component_exists :
    ∀ (fs : List String), (∀ f ∈ fs, (componentOf f).isSome) →
      ¬(fs.map componentOf).Nodup →
      ∃ c, 2 ≤ (fs.filter fun f => componentOf f == some c).length := by
  intro fs
  induction fs with
  | nil =>
    intro _ hnd
    simp at hnd
  | cons f fs ih =>
    intro hall hnd
    rw [List.map_cons] at hnd
    by_cases hmem : componentOf f ∈ fs.map componentOf
    · obtain ⟨c, hcomp⟩ := Option.isSome_iff_exists.mp (hall f (by simp))
      obtain ⟨f2, hf2, hf2c⟩ := List.mem_map.mp hmem
      refine ⟨c, ?_⟩
      have hmemfil : f2 ∈ fs.filter fun f3 => componentOf f3 == some c :=
        List.mem_filter.mpr ⟨hf2, by rw [hf2c, hcomp]; exact beq_self_eq_true _⟩
      have hpos : 1 ≤ (fs.filter fun f3 => componentOf f3 == some c).length := by
        cases hfil : fs.filter fun f3 => componentOf f3 == some c with
        | nil =>
          rw [hfil] at hmemfil
          cases hmemfil
        | cons x xs => simp
      rw [List.filter_cons, if_pos (by rw [hcomp]; exact beq_self_eq_true _)]
      simp only [List.length_cons]
      omega
    · have hnd2 : ¬(fs.map componentOf).Nodup := by
        intro hc
        exact hnd (List.nodup_cons.mpr ⟨hmem, hc⟩)
      obtain ⟨c, hc⟩ := ih (fun f2 hf2 => hall f2 (by simp [hf2])) hnd2
      refine ⟨c, ?_⟩
      rw [List.filter_cons]
      by_cases hp : (componentOf f == some c) = true
      · rw [if_pos hp]
        simp only [List.length_cons]
        omega
      · rw [if_neg hp]
        exact hc

/-- C6: provided every checkpoint path parses to a component name,
`load_checkpoint` fails with the fatal `ValueError` whenever two files
map to the same component, and otherwise returns a mapping associating
each component with its single file's loaded state — every returned pair
comes from a file of that component and every file is represented. -/
theorem load_checkpoint_unique_components (files : List String)
    (hall : ∀ f ∈ files, (componentOf f).isSome) :
    (¬(files.map componentOf).Nodup →
      load_checkpoint files =
        .error "Found multiple checkpoint files for the same component")
    ∧ ((files.map componentOf).Nodup →
      ∃ comps, load_checkpoint files = .ok comps
        ∧ (∀ c s, (c, s) ∈ comps → s ∈ files ∧ componentOf s = some c)
        ∧ (∀ f ∈ files, ∃ c, componentOf f = some c ∧ (c, f) ∈ comps)) := by
  obtain ⟨gs, hgs⟩ := buildComps_ok files hall
  obtain ⟨hget, hnd, hne⟩ := buildComps_inv files gs hgs
  have hlc : load_checkpoint files =
      if gs.any fun g => decide (1 < g.2.length) then
        .error "Found multiple checkpoint files for the same component"
      else .ok (gs.map fun g => (g.1, g.2.headD "")) := by
    unfold load_checkpoint
    rw [hgs]
  constructor
  · intro hnotdup
    obtain ⟨c, hflen⟩ := dup_component_exists files hall hnotdup
    have hgc : 2 ≤ (getComp gs c).length := by
      rw [hget c]
      exact hflen
    cases hl : List.lookup c gs with
    | none =>
      exfalso
      rw [getComp, hl] at hgc
      simp at hgc
    | some l =>
      have hlg : l = getComp gs c := by
        rw [getComp, hl]
        rfl
      have hmem := lookup_mem c l gs hl
      have hany : (gs.any fun g => decide (1 < g.2.length)) = true := by
        rw [List.any_eq_true]
        refine ⟨(c, l), hmem, ?_⟩
        simp only [decide_eq_true_eq]
        rw [hlg]
        omega
      rw [hlc, if_pos hany]
  · intro hdup
    have hlen1 : ∀ c, (files.filter fun f => componentOf f == some c).length ≤ 1 :=
      nodup_component_le_one files hdup
    have hany : ¬((gs.any fun g => decide (1 < g.2.length)) = true) := by
      rw [List.any_eq_true]
      rintro ⟨g, hg, hgl⟩
      simp only [decide_eq_true_eq] at hgl
      have hl : List.lookup g.1 gs = some g.2 :=
        lookup_eq_of_mem_nodup g.1 g.2 gs hnd hg
      have hgc : g.2 = files.filter fun f => componentOf f == some g.1 := by
        rw [← hget g.1, getComp, hl]
        rfl
      have := hlen1 g.1
      rw [← hgc] at this
      omega
    refine ⟨gs.map fun g => (g.1, g.2.headD ""), by rw [hlc, if_neg hany], ?_, ?_⟩
    · intro c s hcs
      obtain ⟨g, hg, heq⟩ := List.mem_map.mp hcs
      have hc : g.1 = c := congrArg Prod.fst heq
      have hs : g.2.headD "" = s := congrArg Prod.snd heq
      have hl : List.lookup g.1 gs = some g.2 :=
        lookup_eq_of_mem_nodup g.1 g.2 gs hnd hg
      have hgc : g.2 = files.filter fun f => componentOf f == some g.1 := by
        rw [← hget g.1, getComp, hl]
        rfl
      have hg2len : g.2.length ≤ 1 := by
        rw [hgc]
        exact hlen1 g.1
      obtain ⟨s0, hs0⟩ : ∃ s0, g.2 = [s0] := by
        cases g2 : g.2 with
        | nil => exact absurd g2 (hne g hg)
        | cons x xs =>
          cases xs with
          | nil => exact ⟨x, rfl⟩
          | cons y ys =>
            exfalso
            rw [g2] at hg2len
            simp at hg2len
      have hsval : s = s0 := by
        rw [← hs, hs0]
        rfl
      have hs0f : s0 ∈ files.filter fun f => componentOf f == some g.1 := by
        rw [← hgc, hs0]
        simp
      have hmf := List.mem_filter.mp hs0f
      refine ⟨by rw [hsval]; exact hmf.1, ?_⟩
      rw [hsval, ← hc]
      exact beq_iff_eq.mp hmf.2
    · intro f hf
      obtain ⟨c, hcomp⟩ := Option.isSome_iff_exists.mp (hall f hf)
      refine ⟨c, hcomp, ?_⟩
      have hffil : f ∈ files.filter fun f2 => componentOf f2 == some c :=
        List.mem_filter.mpr ⟨hf, by rw [hcomp]; exact beq_self_eq_true _⟩
      cases hl : List.lookup c gs with
      | none =>
        exfalso
        have hnil : files.filter (fun f2 => componentOf f2 == some c) = [] := by
          rw [← hget c, getComp, hl]
          rfl
        rw [hnil] at hffil
        cases hffil
      | some l =>
        have hlval : l = files.filter fun f2 => componentOf f2 == some c := by
          rw [← hget c, getComp, hl]
          rfl
        have hfl : f ∈ l := by
          rw [hlval]
          exact hffil
        have hl1 : l.length ≤ 1 := by
          rw [hlval]
          exact hlen1 c
        have hleq : l = [f] := by
          cases l2 : l with
          | nil =>
            rw [l2] at hfl
            cases hfl
          | cons x xs =>
            cases xs with
            | nil =>
              rw [l2] at hfl
              rcases List.mem_cons.mp hfl with he | hm
              · rw [he]
              · cases hm
            | cons y ys =>
              exfalso
              rw [l2] at hl1
              simp at hl1
        refine List.mem_map.mpr ⟨(c, l), lookup_mem c l gs hl, ?_⟩
        rw [hleq]
        rfl

/-- C6 witness: two files for the `model` component are rejected; one
file per component loads into the component-to-state mapping. -/
theorem load_checkpoint_unique_components_witness :
    load_checkpoint ["ckpt/model_model_1.pth", "ckpt/model_model_2.pth"] =
      .error "Found multiple checkpoint files for the same component"
    ∧ ∃ comps,
        load_checkpoint ["ckpt/model_model_1.pth", "ckpt/model_optimizer_1.pth"] =
          .ok comps
        ∧ (∀ c s, (c, s) ∈ comps →
            s ∈ ["ckpt/model_model_1.pth", "ckpt/model_optimizer_1.pth"]
            ∧ componentOf s = some c)
        ∧ (∀ f ∈ ["ckpt/model_model_1.pth", "ckpt/model_optimizer_1.pth"],
            ∃ c, componentOf f = some c ∧ (c, f) ∈ comps) :=
  ⟨(load_checkpoint_unique_components
      ["ckpt/model_model_1.pth", "ckpt/model_model_2.pth"] (by decide)).1
      (by decide),
   (load_checkpoint_unique_components
      ["ckpt/model_model_1.pth", "ckpt/model_optimizer_1.pth"] (by decide)).2
      (by decide)⟩

end Tcre
